import Mathlib

/-!
Verification of the purseauction scraper (src/scripts/scrape.js) against its
natural-language specification.  The JavaScript is shallowly embedded: JSON
values become the inductive `JsVal`, JS numbers are modelled as exact
rationals (the unnormalized fraction type `Q` below, with `none` standing
for NaN or null where noted;
IEEE-754 rounding, overflow to Infinity and shortest-roundtrip printing are
outside the model and never exercised by the inputs of interest), and the
scraper's while-loop is embedded as a fuel-indexed step function so that
non-termination is observable as `none` for every fuel.
-/

set_option autoImplicit false

namespace Purse

/-- Exact rational numbers as unnormalized fractions with a positive
denominator: the model of finite JS numbers.  Fractions are deliberately not
reduced so that every operation is plain integer arithmetic and evaluates
inside the kernel; numeric equality and order are by cross-multiplication. -/
structure Q where
  num : Int
  den : Nat
deriving DecidableEq

def qNat (n : Nat) : Q := ⟨(n : Int), 1⟩

def Q.add (a b : Q) : Q := ⟨a.num * (b.den : Int) + b.num * (a.den : Int), a.den * b.den⟩

def Q.mul (a b : Q) : Q := ⟨a.num * b.num, a.den * b.den⟩

def Q.neg (a : Q) : Q := ⟨-a.num, a.den⟩

/-- Division; the divisor is never zero in any use below. -/
def Q.div (a b : Q) : Q :=
  ⟨if b.num < 0 then -(a.num * (b.den : Int)) else a.num * (b.den : Int), a.den * b.num.natAbs⟩

instance : Add Q := ⟨Q.add⟩
instance : Mul Q := ⟨Q.mul⟩
instance : Div Q := ⟨Q.div⟩
instance : Neg Q := ⟨Q.neg⟩
instance : Zero Q := ⟨⟨0, 1⟩⟩

/-- Numeric equality of fraction values (the JS == or === on numbers). -/
def Q.eqB (a b : Q) : Bool := a.num * (b.den : Int) == b.num * (a.den : Int)

/-- Numeric order of fraction values. -/
def Q.leB (a b : Q) : Bool := decide (a.num * (b.den : Int) ≤ b.num * (a.den : Int))

/-- JSON values as produced by a strict JSON.parse.  Object fields keep
insertion order; property lookup takes the last binding with a given key,
matching JS object semantics for duplicate keys. -/
inductive JsVal where
  | null
  | bool (b : Bool)
  | num (q : Q)
  | str (s : List Char)
  | arr (xs : List JsVal)
  | obj (fields : List (List Char × JsVal))

/-- The JS \s character class (WhiteSpace plus LineTerminator), shared by
String.prototype.trim and the regular expressions in scrape.js. -/
def isJsSpace (c : Char) : Bool :=
  c == ' ' || c == '\t' || c == '\n' || c == '\r' || c == '\x0b' || c == '\x0c' ||
  c.val == 0xa0 || c.val == 0x1680 || (0x2000 ≤ c.val && c.val ≤ 0x200a) ||
  c.val == 0x2028 || c.val == 0x2029 || c.val == 0x202f || c.val == 0x205f ||
  c.val == 0x3000 || c.val == 0xfeff

def isDigitChar (c : Char) : Bool := '0' ≤ c && c ≤ '9'

/-- String.prototype.trim. -/
def jsTrim (s : List Char) : List Char :=
  ((s.dropWhile isJsSpace).reverse.dropWhile isJsSpace).reverse

/-- Numeric value of a digit string, base 10 (the value parseInt(ds, 10)
gives on a pure digit string, which is the only way scrape.js calls it). -/
def digitsVal (ds : List Char) : Nat :=
  ds.foldl (fun a c => a * 10 + (c.toNat - 48)) 0

/-- Decimal rendering of an exact rational, used for JS number-to-string
conversion.  Faithful on decimally-terminating values (the only values the
scraper's data can produce); capped at 40 fractional digits otherwise. -/
def fracDigits : Nat → Nat → Nat → List Char
  | 0, _, _ => []
  | f + 1, r, d =>
    let r10 := r * 10
    Nat.digitChar (r10 / d) :: (if r10 % d == 0 then [] else fracDigits f (r10 % d) d)

def ratToString (q : Q) : List Char :=
  let sgn : List Char := if q.num < 0 then ['-'] else []
  let n := q.num.natAbs
  let d := q.den
  sgn ++ Nat.toDigits 10 (n / d) ++ (if n % d == 0 then [] else '.' :: fracDigits 40 (n % d) d)

mutual

/-- JS String() conversion of a value (abstract ToPrimitive for the types a
JSON.parse result can hold): strings unchanged, numbers in decimal, objects
render as the usual bracketed tag, arrays join their element strings with
commas and render null elements as the empty string. -/
def jsToString : JsVal → List Char
  | .null => 'n' :: 'u' :: 'l' :: 'l' :: []
  | .bool true => 't' :: 'r' :: 'u' :: 'e' :: []
  | .bool false => 'f' :: 'a' :: 'l' :: 's' :: 'e' :: []
  | .num q => ratToString q
  | .str s => s
  | .obj _ => "[object Object]".data
  | .arr xs => jsToStringArr xs

def jsToStringArr : List JsVal → List Char
  | [] => []
  | x :: xs =>
    (match x with
     | .null => []
     | v => jsToString v) ++
    (match xs with
     | [] => []
     | _ => ',' :: jsToStringArr xs)

end

/-- JS truthiness of a property-access result (`none` is undefined). -/
def truthyV : JsVal → Bool
  | .null => false
  | .bool b => b
  | .num q => !(Q.eqB q (qNat 0))
  | .str s => !s.isEmpty
  | .arr _ => true
  | .obj _ => true

def truthy : Option JsVal → Bool
  | none => false
  | some v => truthyV v

/-- Optional-chained property access `x?.k`: undefined (`none`) unless `x` is
an object with the key; duplicate keys resolve to the last binding. -/
def getProp (x : Option JsVal) (k : List Char) : Option JsVal :=
  match x with
  | some (.obj fs) => ((fs.reverse).find? (fun p => p.1 == k)).map (fun p => p.2)
  | _ => none

/-- JS parseFloat on an already comma-stripped string, composed with the
Number.isFinite guard of scrape.js toNumber: longest numeric prefix after
leading whitespace; `none` when no numeric prefix exists (NaN) or the prefix
is an Infinity form (non-finite). -/
def jsParseFloatFinite (s : List Char) : Option Q :=
  let s1 := s.dropWhile isJsSpace
  let neg : Bool := match s1 with
    | '-' :: _ => true
    | _ => false
  let s2 : List Char := match s1 with
    | '-' :: r => r
    | '+' :: r => r
    | _ => s1
  if ("Infinity".data).isPrefixOf s2 then none
  else
    let ds := s2.takeWhile isDigitChar
    let r1 := s2.drop ds.length
    let fs : List Char := match r1 with
      | '.' :: rr => rr.takeWhile isDigitChar
      | _ => []
    let r2 : List Char := match r1 with
      | '.' :: rr => rr.drop fs.length
      | _ => r1
    if ds.isEmpty && fs.isEmpty then none
    else
      let base : Q := qNat (digitsVal ds) + qNat (digitsVal fs) / qNat (10 ^ fs.length)
      let withExp : Q := match r2 with
        | 'e' :: rr => parseExp base rr
        | 'E' :: rr => parseExp base rr
        | _ => base
      some (if neg then Q.neg withExp else withExp)
where
  /-- Exponent suffix of the float grammar; consumed only when at least one
  exponent digit follows, as in JS (parseFloat of "1e" is 1). -/
  parseExp (base : Q) (rr : List Char) : Q :=
    let eneg : Bool := match rr with
      | '-' :: _ => true
      | _ => false
    let rr2 : List Char := match rr with
      | '-' :: r => r
      | '+' :: r => r
      | _ => rr
    let es := rr2.takeWhile isDigitChar
    if es.isEmpty then base
    else if eneg then base / qNat (10 ^ digitsVal es) else base * qNat (10 ^ digitsVal es)

/-- scrape.js:15-23 toNumber: null/undefined give null; finite numbers pass
through; strings are parsed by parseFloat after stripping every comma; any
other type gives null.  (In the model every JsVal number is finite.) -/
def toNumber (x : Option JsVal) : Option Q :=
  match x with
  | none => none
  | some .null => none
  | some (.num q) => some q
  | some (.str s) => jsParseFloatFinite (s.filter (fun c => !(c == ',')))
  | some _ => none

/-- JS Number() applied to a string (the Number(lotNum) conversions of
scrape.js main): trimmed empty string is 0; hex/octal/binary literals; a
full-string decimal float; otherwise NaN, modelled as `none`.  Infinity
forms are also mapped to `none` (non-numbers for this model; no requested
lot identifier is an Infinity form). -/
def jsNumberOfString (s : List Char) : Option Q :=
  let t := jsTrim s
  if t.isEmpty then some 0
  else
    match t with
    | '0' :: 'x' :: r => radixVal 16 isHexDigit hexVal r
    | '0' :: 'X' :: r => radixVal 16 isHexDigit hexVal r
    | '0' :: 'o' :: r => radixVal 8 isOctDigit octVal r
    | '0' :: 'O' :: r => radixVal 8 isOctDigit octVal r
    | '0' :: 'b' :: r => radixVal 2 isBinDigit binVal r
    | '0' :: 'B' :: r => radixVal 2 isBinDigit binVal r
    | _ =>
      if t == "Infinity".data || t == "+Infinity".data || t == "-Infinity".data then none
      else decimalFull t
where
  isHexDigit (c : Char) : Bool :=
    isDigitChar c || ('a' ≤ c && c ≤ 'f') || ('A' ≤ c && c ≤ 'F')
  hexVal (c : Char) : Nat :=
    if isDigitChar c then c.toNat - 48
    else if 'a' ≤ c && c ≤ 'f' then c.toNat - 87
    else c.toNat - 55
  isOctDigit (c : Char) : Bool := '0' ≤ c && c ≤ '7'
  octVal (c : Char) : Nat := c.toNat - 48
  isBinDigit (c : Char) : Bool := c == '0' || c == '1'
  binVal (c : Char) : Nat := c.toNat - 48
  radixVal (b : Nat) (ok : Char → Bool) (v : Char → Nat) (r : List Char) : Option Q :=
    if r.isEmpty || !(r.all ok) then none
    else some (qNat (r.foldl (fun a c => a * b + v c) 0))
  /-- Full-string StrDecimalLiteral: sign, digits with optional fraction and
  exponent, nothing left over. -/
  decimalFull (t : List Char) : Option Q :=
    let neg : Bool := match t with
      | '-' :: _ => true
      | _ => false
    let s2 : List Char := match t with
      | '-' :: r => r
      | '+' :: r => r
      | _ => t
    let ds := s2.takeWhile isDigitChar
    let r1 := s2.drop ds.length
    let fs : List Char := match r1 with
      | '.' :: rr => rr.takeWhile isDigitChar
      | _ => []
    let r2 : List Char := match r1 with
      | '.' :: rr => rr.drop fs.length
      | _ => r1
    if ds.isEmpty && fs.isEmpty then none
    else
      let base : Q := qNat (digitsVal ds) + qNat (digitsVal fs) / qNat (10 ^ fs.length)
      let expPart : Option Q := match r2 with
        | [] => some base
        | 'e' :: rr => expFull base rr
        | 'E' :: rr => expFull base rr
        | _ => none
      expPart.map (fun q => if neg then Q.neg q else q)
  expFull (base : Q) (rr : List Char) : Option Q :=
    let eneg : Bool := match rr with
      | '-' :: _ => true
      | _ => false
    let rr2 : List Char := match rr with
      | '-' :: r => r
      | '+' :: r => r
      | _ => rr
    let es := rr2.takeWhile isDigitChar
    if es.isEmpty || !(rr2.drop es.length).isEmpty then none
    else some (if eneg then base / qNat (10 ^ digitsVal es) else base * qNat (10 ^ digitsVal es))

/-! ## Strict JSON parsing (the JSON.parse builtin called at scrape.js:88) -/

/-- JSON whitespace (space, tab, newline, carriage return). -/
def isJsonWs (c : Char) : Bool := c == ' ' || c == '\t' || c == '\n' || c == '\r'

def skipWs (s : List Char) : List Char := s.dropWhile isJsonWs

def hexDigitVal (c : Char) : Option Nat :=
  if isDigitChar c then some (c.toNat - 48)
  else if 'a' ≤ c && c ≤ 'f' then some (c.toNat - 87)
  else if 'A' ≤ c && c ≤ 'F' then some (c.toNat - 55)
  else none

/-- JSON string body after the opening quote: returns the decoded content and
the remainder after the closing quote.  Raw control characters are rejected,
escapes decoded; \u escapes denoting surrogate halves are rejected (a Lean
Char cannot hold them; no input of interest contains them). -/
def parseJStr : List Char → Option (List Char × List Char)
  | [] => none
  | '"' :: r => some ([], r)
  | '\\' :: r =>
    match r with
    | '"' :: r2 => (parseJStr r2).map (fun p => ('"' :: p.1, p.2))
    | '\\' :: r2 => (parseJStr r2).map (fun p => ('\\' :: p.1, p.2))
    | '/' :: r2 => (parseJStr r2).map (fun p => ('/' :: p.1, p.2))
    | 'b' :: r2 => (parseJStr r2).map (fun p => ('\x08' :: p.1, p.2))
    | 'f' :: r2 => (parseJStr r2).map (fun p => ('\x0c' :: p.1, p.2))
    | 'n' :: r2 => (parseJStr r2).map (fun p => ('\n' :: p.1, p.2))
    | 'r' :: r2 => (parseJStr r2).map (fun p => ('\r' :: p.1, p.2))
    | 't' :: r2 => (parseJStr r2).map (fun p => ('\t' :: p.1, p.2))
    | 'u' :: a :: b :: c :: d :: r2 =>
      match hexDigitVal a, hexDigitVal b, hexDigitVal c, hexDigitVal d with
      | some va, some vb, some vc, some vd =>
        let n := ((va * 16 + vb) * 16 + vc) * 16 + vd
        if 0xd800 ≤ n && n ≤ 0xdfff then none
        else (parseJStr r2).map (fun p => (Char.ofNat n :: p.1, p.2))
      | _, _, _, _ => none
    | _ => none
  | c :: r =>
    if c.val < 32 then none
    else (parseJStr r).map (fun p => (c :: p.1, p.2))

/-- JSON number grammar, as an exact rational: -?(0|[1-9]digits)(.digits)?
((e|E)(+|-)?digits)?.  A prefix violation makes the whole candidate fail at
the container level exactly as in JS, so failing here is equivalent. -/
def parseJNum (s : List Char) : Option (Q × List Char) :=
  let neg : Bool := match s with
    | '-' :: _ => true
    | _ => false
  let s1 : List Char := match s with
    | '-' :: r => r
    | _ => s
  match s1 with
  | '0' :: r => parseAfterInt neg 0 r
  | c :: _ =>
    if isDigitChar c && !(c == '0') then
      let ds := s1.takeWhile isDigitChar
      parseAfterInt neg (digitsVal ds) (s1.drop ds.length)
    else none
  | [] => none
where
  parseAfterInt (neg : Bool) (ip : Nat) (r : List Char) : Option (Q × List Char) :=
    let fsOpt : Option (List Char × List Char) := match r with
      | '.' :: rr =>
        let fs := rr.takeWhile isDigitChar
        if fs.isEmpty then none else some (fs, rr.drop fs.length)
      | _ => some ([], r)
    match fsOpt with
    | none => none
    | some (fs, r2) =>
      let base : Q := qNat ip + qNat (digitsVal fs) / qNat (10 ^ fs.length)
      let expOpt : Option (Q × List Char) := match r2 with
        | 'e' :: rr => parseJExp base rr
        | 'E' :: rr => parseJExp base rr
        | _ => some (base, r2)
      expOpt.map (fun p => (if neg then Q.neg p.1 else p.1, p.2))
  parseJExp (base : Q) (rr : List Char) : Option (Q × List Char) :=
    let eneg : Bool := match rr with
      | '-' :: _ => true
      | _ => false
    let rr2 : List Char := match rr with
      | '-' :: r => r
      | '+' :: r => r
      | _ => rr
    let es := rr2.takeWhile isDigitChar
    if es.isEmpty then none
    else
      let q := if eneg then base / qNat (10 ^ digitsVal es) else base * qNat (10 ^ digitsVal es)
      some (q, rr2.drop es.length)

mutual

/-- Recursive-descent JSON value parser; the fuel only bounds recursion and
is always supplied generously (at least the input length plus one, enough
because every recursive call consumes at least one character first). -/
def parseJVal : Nat → List Char → Option (JsVal × List Char)
  | 0, _ => none
  | f + 1, s =>
    match skipWs s with
    | 'n' :: 'u' :: 'l' :: 'l' :: r => some (.null, r)
    | 't' :: 'r' :: 'u' :: 'e' :: r => some (.bool true, r)
    | 'f' :: 'a' :: 'l' :: 's' :: 'e' :: r => some (.bool false, r)
    | '"' :: r => (parseJStr r).map (fun p => (.str p.1, p.2))
    | '{' :: r =>
      (match skipWs r with
       | '}' :: r2 => some (.obj [], r2)
       | _ => parseJMembers f r [])
    | '[' :: r =>
      (match skipWs r with
       | ']' :: r2 => some (.arr [], r2)
       | _ => parseJItems f r [])
    | r => (parseJNum r).map (fun p => (.num p.1, p.2))

def parseJMembers : Nat → List Char → List (List Char × JsVal) → Option (JsVal × List Char)
  | 0, _, _ => none
  | f + 1, s, acc =>
    match skipWs s with
    | '"' :: r =>
      match parseJStr r with
      | none => none
      | some (k, r2) =>
        match skipWs r2 with
        | ':' :: r3 =>
          match parseJVal f r3 with
          | none => none
          | some (v, r4) =>
            match skipWs r4 with
            | ',' :: r5 => parseJMembers f r5 (acc ++ [(k, v)])
            | '}' :: r5 => some (.obj (acc ++ [(k, v)]), r5)
            | _ => none
        | _ => none
    | _ => none

def parseJItems : Nat → List Char → List JsVal → Option (JsVal × List Char)
  | 0, _, _ => none
  | f + 1, s, acc =>
    match parseJVal f s with
    | none => none
    | some (v, r) =>
      match skipWs r with
      | ',' :: r2 => parseJItems f r2 (acc ++ [v])
      | ']' :: r2 => some (.arr (acc ++ [v]), r2)
      | _ => none

end

/-- JSON.parse: a single value, with nothing but whitespace around it. -/
def jsonParse (s : List Char) : Option JsVal :=
  match parseJVal (s.length + 1) s with
  | some (v, rest) => if (skipWs rest).isEmpty then some v else none
  | none => none

/-! ## The embedded-object extractor (scrape.js:57-100 extractLotObjects) -/

/-- The marker key substring searched for by extractLotObjects. -/
def markerK : List Char := "\"lot_number\"".data

/-- No brace character anywhere: the middles over which the forward scan of
extractLotObjects moves without changing depth. -/
def braceFreeB (w : List Char) : Bool := w.all (fun c => !(c == '{') && !(c == '}'))

/-- Character at an index, with a null default (all uses are in bounds). -/
def getC (hay : List Char) (i : Nat) : Char := hay.getD i '\x00'

/-- scrape.js:85-87 cleanup, step 1: the global replace of U+2028/U+2029
line separators with the empty string. -/
def stripLineSeps (s : List Char) : List Char :=
  s.filter (fun c => !(c.val == 0x2028) && !(c.val == 0x2029))

/-- scrape.js:87 cleanup, step 2: the global leftmost-first replace of comma,
optional \s*, closing bracket by the bracket alone.  `pend` carries a read
but not yet decided candidate (a comma followed by whitespace) in reverse. -/
def stcAux (pend : List Char) : List Char → List Char
  | [] => pend.reverse
  | c :: rest =>
    if pend.isEmpty then
      if c == ',' then stcAux [c] rest else c :: stcAux [] rest
    else
      if c == ']' || c == '}' then c :: stcAux [] rest
      else if isJsSpace c then stcAux (c :: pend) rest
      else if c == ',' then pend.reverse ++ stcAux [c] rest
      else pend.reverse ++ c :: stcAux [] rest

def stripTrailingCommas (s : List Char) : List Char := stcAux [] s

/-- The mild textual cleanup applied to a candidate before JSON.parse. -/
def jsClean (s : List Char) : List Char := stripTrailingCommas (stripLineSeps s)

/-- JS String.prototype.indexOf(needle, idx) for the marker search, as the
least index at or after `idx` where the needle is a prefix of the rest;
fueled countdown over the remaining positions. -/
def findSubA (needle hay : List Char) : Nat → Nat → Option Nat
  | _, 0 => none
  | idx, f + 1 =>
    if needle.isPrefixOf (hay.drop idx) then some idx
    else if hay.length ≤ idx then none
    else findSubA needle hay (idx + 1) f

def findSub (needle hay : List Char) (idx : Nat) : Option Nat :=
  findSubA needle hay idx (hay.length + 1 - idx)

/-- scrape.js:66-67: scan left from the key to the nearest opening brace
(the code checks nearness only, not unmatchedness). -/
def scanLeftBrace (hay : List Char) : Nat → Nat
  | 0 => 0
  | i + 1 => if getC hay (i + 1) == '{' then i + 1 else scanLeftBrace hay i

/-- scrape.js:71-96: forward brace-depth scan from `pos`; `some e` is the
index of the brace where depth returned to zero, `none` means the loop ran
off the end of the string.  Not string-literal-aware, exactly as the code. -/
def braceScan (hay : List Char) : Nat → Nat → Nat → Option Nat
  | _, _, 0 => none
  | pos, depth, f + 1 =>
    if pos < hay.length then
      let ch := getC hay pos
      if ch == '{' then braceScan hay (pos + 1) (depth + 1) f
      else if ch == '}' then
        if depth == 1 then some pos else braceScan hay (pos + 1) (depth - 1) f
      else braceScan hay (pos + 1) depth f
    else none

/-- One iteration of the extractLotObjects while-loop, driven purely by the
scan cursor: `none` is the loop exit (no further marker), otherwise the new
cursor plus the candidate object if its cleaned text parsed. -/
def extractStep (hay : List Char) (idx : Nat) : Option (Nat × Option JsVal) :=
  match findSub markerK hay idx with
  | none => none
  | some keyIdx =>
    let start := scanLeftBrace hay keyIdx
    if getC hay start == '{' then
      match braceScan hay start 0 (hay.length + 1) with
      | some endP =>
        let objText := (hay.drop start).take (endP + 1 - start)
        some (endP + 1, jsonParse (jsClean objText))
      | none => some (hay.length + 1, none)
    else some (keyIdx + 12, none)

/-- The while-loop, fuel-indexed: `some results` when the loop exits within
`fuel` iterations, `none` when it does not (in particular when it never
exits). -/
def extractRun (hay : List Char) : Nat → Nat → List JsVal → Option (List JsVal)
  | 0, _, _ => none
  | f + 1, idx, res =>
    match extractStep hay idx with
    | none => some res
    | some (idx2, o) => extractRun hay f idx2 (res ++ o.toList)

def extractLotObjects (hay : List Char) (fuel : Nat) : Option (List JsVal) :=
  extractRun hay fuel 0 []

/-! ## Bid selection (scrape.js:102-133 pickBidForLot) -/

def currentBidKey : List Char := "current_bid".data
def currentBidTxtKey : List Char := "current_bid_txt".data
def dynKey : List Char := "online_only_dynamic_lot_data".data
def staticKey : List Char := "online_only_static_lot_data".data
def nextBidKey : List Char := "next_bid".data
def nextBidTextKey : List Char := "next_bid_text".data
def headerPriceKey : List Char := "header_price".data
def itemStatusKey : List Char := "item_status".data
def bidCountTxtKey : List Char := "bid_count_txt".data
def hasNoBidsKey : List Char := "has_no_bids".data
def lotNumberKey : List Char := "lot_number".data

/-- scrape.js:117 regex match (\d+)\s*bids? : the first position holding a
digit run followed by optional whitespace and the literal bid; the captured
group is the maximal digit run there (no shorter run can match, since after
fewer digits a digit follows where \s*b is required). -/
def regexBidCount : List Char → Option Nat
  | [] => none
  | c :: rest =>
    let s := c :: rest
    let ds := s.takeWhile isDigitChar
    let r1 := (s.drop ds.length).dropWhile isJsSpace
    if !ds.isEmpty && ("bid".data).isPrefixOf r1 then some (digitsVal ds)
    else regexBidCount rest

/-- JS a || b || … || null over property accesses: the first truthy value,
else null. -/
def firstTruthy : List (Option JsVal) → JsVal
  | [] => .null
  | x :: xs => if truthy x then x.getD .null else firstTruthy xs

/-- x || null for an already-computed value. -/
def orNullV (v : JsVal) : JsVal := if truthyV v then v else .null

/-- x || null for a property access. -/
def orNull (x : Option JsVal) : JsVal := if truthy x then x.getD .null else .null

/-- Strict-equality test `x === true` of scrape.js:124. -/
def jsIsTrueB (x : Option JsVal) : Bool :=
  match x with
  | some (.bool true) => true
  | _ => false

/-- The normalized bid view returned by pickBidForLot. -/
structure BidView where
  current_bid : Option Q
  next_bid : Option Q
  currency_text : JsVal
  bid_count : Nat
  has_no_bids : Bool

/-- scrape.js:102-133 pickBidForLot.  The result is `none` exactly when the
code would throw: bid_count_txt truthy but not a string, so that .match is
called on a non-string (the error would abort the whole run).  When
has_no_bids comes out true the current_bid is overridden to the number 0. -/
def pickBidForLot (lot : JsVal) : Option BidView :=
  let currentBid := toNumber (getProp (some lot) currentBidKey)
  let nextBid := toNumber (getProp (getProp (some lot) dynKey) nextBidKey)
  let currencyText := firstTruthy
    [getProp (some lot) currentBidTxtKey,
     getProp (getProp (some lot) dynKey) nextBidTextKey,
     getProp (getProp (some lot) staticKey) headerPriceKey]
  let bct := getProp (some lot) bidCountTxtKey
  let bidCountOpt : Option Nat :=
    if truthy bct then
      match bct with
      | some (.str s) => some ((regexBidCount s).getD 0)
      | _ => none
    else some 0
  bidCountOpt.map (fun bidCount =>
    let hasNoBids := jsIsTrueB (getProp (some lot) hasNoBidsKey) || bidCount == 0
    { current_bid := if hasNoBids then some (qNat 0) else currentBid
      next_bid := nextBid
      currency_text := currencyText
      bid_count := bidCount
      has_no_bids := hasNoBids })

/-! ## Aggregation (scrape.js:135-235 main, pure part) -/

/-- One entry of the written report (scrape.js:173-183 and 193-203).  JS
null is `none` for the numeric fields and `JsVal.null` for the text fields;
a `lot` of `none` models NaN from Number() on a non-numeric identifier. -/
structure Entry where
  lot : Option Q
  current_bid : Option Q
  next_bid : Option Q
  shown_amount : Option Q
  status : JsVal
  estimate : JsVal
  bid_text : JsVal
  bid_count : Nat
  has_no_bids : Bool

/-- scrape.js:161 map key: String(lot?.lot_number || "").trim(). -/
def keyOf (lot : JsVal) : List Char :=
  let ln := getProp (some lot) lotNumberKey
  jsTrim (jsToString (if truthy ln then ln.getD .null else .str []))

/-- scrape.js:160-165 loop body: insert unless the key is already present
(Map.has check then Map.set). -/
def mapInsert (m : List (List Char × JsVal)) (lot : JsVal) : List (List Char × JsVal) :=
  let k := keyOf lot
  if (m.find? (fun p => p.1 == k)).isSome then m else m ++ [(k, lot)]

/-- scrape.js:159-165: deduplicating map, first occurrence wins, kept as an
insertion-ordered association list. -/
def lotMapOf (lots : List JsVal) : List (List Char × JsVal) :=
  lots.foldl mapInsert []

def lookupMap (m : List (List Char × JsVal)) (k : List Char) : Option JsVal :=
  (m.find? (fun p => p.1 == k)).map (fun p => p.2)

/-- scrape.js:173-183 and 210-220: the placeholder entry for a lot that was
not found on the page. -/
def placeholderE (t : List Char) : Entry :=
  { lot := jsNumberOfString t
    current_bid := none
    next_bid := none
    shown_amount := none
    status := .null
    estimate := .null
    bid_text := .null
    bid_count := 0
    has_no_bids := true }

/-- scrape.js:187-203: the entry built from a found lot record; `none` when
pickBidForLot would throw. -/
def entryFromLot (t : List Char) (lot : JsVal) : Option Entry :=
  (pickBidForLot lot).map (fun bids =>
    let chosen : Option Q :=
      if bids.current_bid.isSome then bids.current_bid
      else if bids.next_bid.isSome then bids.next_bid
      else none
    { lot := jsNumberOfString t
      current_bid := bids.current_bid
      next_bid := bids.next_bid
      shown_amount := chosen
      status := orNull (getProp (getProp (some lot) dynKey) itemStatusKey)
      estimate := orNull (getProp (getProp (some lot) staticKey) headerPriceKey)
      bid_text := orNullV bids.currency_text
      bid_count := bids.bid_count
      has_no_bids := bids.has_no_bids })

/-- The branch of the first main loop body for one target. -/
def buildEntryFor (m : List (List Char × JsVal)) (t : List Char) : Option Entry :=
  match lookupMap m t with
  | none => some (placeholderE t)
  | some lot => entryFromLot t lot

/-- scrape.js:168-204: the first loop over TARGET_LOTS, in set-insertion
order; `none` aborts the run as an uncaught throw would. -/
def buildEntries1 (m : List (List Char × JsVal)) : List (List Char) → Option (List Entry)
  | [] => some []
  | t :: ts =>
    match buildEntryFor m t with
    | none => none
    | some e => (buildEntries1 m ts).map (fun l => e :: l)

/-- JS === between the entry lot and Number(t): false whenever either side
is NaN. -/
def jsEqOptQ (a b : Option Q) : Bool :=
  match a, b with
  | some x, some y => Q.eqB x y
  | _, _ => false

/-- scrape.js:207-222: the second loop, appending a placeholder whenever no
entry with the target's numeric lot id is found, searching the list as it
grows. -/
def ensureLoop (targets : List (List Char)) (es : List Entry) : List Entry :=
  targets.foldl
    (fun acc t =>
      if acc.any (fun e => jsEqOptQ e.lot (jsNumberOfString t)) then acc
      else acc ++ [placeholderE t])
    es

/-- The comparator entries.sort((a, b) => a.lot - b.lot) induces on entries
whose lots are numbers; on a NaN lot the subtraction is NaN and the engine
order is unspecified, modelled as always-true. -/
def leLotB (a b : Entry) : Bool :=
  match a.lot, b.lot with
  | some x, some y => Q.leB x y
  | _, _ => true

/-- A stable insertion sort modelling entries.sort (stable per ES2019; any
correct stable sort produces the same list). -/
def insertE (e : Entry) : List Entry → List Entry
  | [] => [e]
  | x :: xs => if leLotB e x then e :: x :: xs else x :: insertE e xs

def sortE : List Entry → List Entry
  | [] => []
  | x :: xs => insertE x (sortE xs)

/-- Ascending-by-lot check on adjacent entries (what entries.sort achieves
on number-valued lots). -/
def sortedByLotB : List Entry → Bool
  | [] => true
  | [_] => true
  | a :: b :: r => leLotB a b && sortedByLotB (b :: r)

/-- The pure entries pipeline of main: extract, deduplicate, build, ensure,
sort.  `none` when the extractor does not finish within the fuel or the run
would throw. -/
def mainEntries (html : List Char) (targets : List (List Char)) (fuel : Nat) :
    Option (List Entry) :=
  (extractLotObjects html fuel).bind (fun lots =>
    (buildEntries1 (lotMapOf lots) targets).map (fun es1 => sortE (ensureLoop targets es1)))

/-- The shown amount as the total reduce of scrape.js:227-231 reads it: the
typeof check makes a non-number (null) count as 0. -/
def shownVal (e : Entry) : Q :=
  match e.shown_amount with
  | some q => q
  | none => 0

/-- scrape.js:227-231: the total reduce over the final entries. -/
def totalOf (es : List Entry) : Q :=
  es.foldl (fun s e => if e.has_no_bids then s else s + shownVal e) 0

/-- The spec-side sum: shown amounts over the entries whose has-no-bids flag
is false. -/
def sumShown (es : List Entry) : Q :=
  ((es.filter (fun e => !e.has_no_bids)).map shownVal).sum

/-! ## Concrete lot records and pages used by witnesses and counterexamples -/

/-- A record with no current_bid field at all (and no bid-count text). -/
def recC6 : JsVal := JsVal.obj [(lotNumberKey, JsVal.str "5".data)]

/-- A record with two bids and a comma-grouped current bid. -/
def recC6w : JsVal :=
  JsVal.obj
    [(lotNumberKey, JsVal.str "5".data),
     (currentBidKey, JsVal.str "1,400.00".data),
     (bidCountTxtKey, JsVal.str " - 2 bids".data)]

def viewC6w : BidView :=
  { current_bid := some ⟨140000, 100⟩
    next_bid := none
    currency_text := JsVal.null
    bid_count := 2
    has_no_bids := false }

/-- A record with a numeric current bid but a zero bid count. -/
def recC7zero : JsVal :=
  JsVal.obj
    [(currentBidKey, JsVal.str "1400.00".data),
     (bidCountTxtKey, JsVal.str " - 0 bids".data)]

def viewC7zero : BidView :=
  { current_bid := some (qNat 0)
    next_bid := none
    currency_text := JsVal.null
    bid_count := 0
    has_no_bids := true }

/-- A record with a numeric current bid and no bid-count field. -/
def recC7miss : JsVal := JsVal.obj [(currentBidKey, JsVal.str "1400.00".data)]

/-- A record with four bids whose explicit has_no_bids flag is set. -/
def recC10 : JsVal :=
  JsVal.obj
    [(hasNoBidsKey, JsVal.bool true),
     (currentBidKey, JsVal.str "999".data),
     (bidCountTxtKey, JsVal.str " - 4 bids".data)]

def viewC10 : BidView :=
  { current_bid := some (qNat 0)
    next_bid := none
    currency_text := JsVal.null
    bid_count := 4
    has_no_bids := true }

def entC10 : Entry :=
  { lot := some ⟨10, 1⟩
    current_bid := some (qNat 0)
    next_bid := none
    shown_amount := some (qNat 0)
    status := JsVal.null
    estimate := JsVal.null
    bid_text := JsVal.null
    bid_count := 4
    has_no_bids := true }

/-- Two records with the same lot number "5" and different current bids. -/
def recC4a : JsVal :=
  JsVal.obj [(lotNumberKey, JsVal.str "5".data), (currentBidKey, JsVal.str "100.00".data)]

def recC4b : JsVal :=
  JsVal.obj [(lotNumberKey, JsVal.str "5".data), (currentBidKey, JsVal.str "200.00".data)]

/-- The C9 page: exactly the example object of the specification. -/
def h9 : List Char :=
  "\x7b\"lot_number\":\"5\",\"current_bid\":\"1400.00\",\"bid_count_txt\":\" - 3 bids\"\x7d".data

def obj9 : JsVal :=
  JsVal.obj
    [("lot_number".data, JsVal.str "5".data),
     ("current_bid".data, JsVal.str "1400.00".data),
     ("bid_count_txt".data, JsVal.str " - 3 bids".data)]

/-- The entry the scraper builds for lot 5 of the C9 page; 140000/100 is the
exact value 1400 in the unnormalized fraction model. -/
def e9 : Entry :=
  { lot := some ⟨5, 1⟩
    current_bid := some ⟨140000, 100⟩
    next_bid := none
    shown_amount := some ⟨140000, 100⟩
    status := JsVal.null
    estimate := JsVal.null
    bid_text := JsVal.null
    bid_count := 3
    has_no_bids := false }

/-- The C8 failing page: a lot object whose nested object value precedes the
lot_number key. -/
def h8 : List Char := "\x7b\"a\":\x7b\"b\":1\x7d,\"lot_number\":\"5\"\x7d".data

/-- The inner object the backward scan wrongly latches onto. -/
def obj8 : JsVal := JsVal.obj [("b".data, JsVal.num ⟨1, 1⟩)]

/-- C5 witness page: a malformed candidate followed by a valid object whose
marker is its first key. -/
def objC5w : JsVal := JsVal.obj [("lot_number".data, JsVal.str "7".data)]

/-- C5 counterexample page: the malformed candidate, then a syntactically
valid marker-bearing object whose string value holds a brace. -/
def mC5 : List Char := "\x7b\"lot_number\":\x7d".data

def vC5 : List Char := "\x7b\"a\":\"\x7b\",\"lot_number\":\"7\"\x7d".data

def htmlC5c : List Char := mC5 ++ ' ' :: vC5

def objC5c : JsVal :=
  JsVal.obj [("a".data, JsVal.str "\x7b".data), ("lot_number".data, JsVal.str "7".data)]

/-- C5 witness page, in the generalized candidate shape: the counterexample's
malformed candidate and one-space separator, but a valid object whose first
key is the marker. -/
def mC5w : List Char := '{' :: ((([] : List Char) ++ (markerK ++ ":".data)) ++ ['}'])

def vC5w : List Char := '{' :: ((markerK ++ ":\"7\"".data) ++ ['}'])

def htmlC5w : List Char := ([] : List Char) ++ (mC5w ++ ([' '] ++ (vC5w ++ [])))

/-- C5 counterexample, unbalanced variant: the malformed candidate is an
unbalanced marker-bearing brace, and the following valid object is swallowed
by the forward scan. -/
def mC5u : List Char := "\x7b\"lot_number\":".data

def htmlC5u : List Char := mC5u ++ ' ' :: vC5w

/-! ## Algebra of the fraction model -/

theorem Q.add_assoc (a b c : Q) : a + b + c = a + (b + c) := by
  cases a; cases b; cases c
  show Q.add (Q.add _ _) _ = Q.add _ (Q.add _ _)
  simp only [Q.add, Q.mk.injEq]
  constructor
  · push_cast
    ring
  · ring

theorem Q.zero_add (a : Q) : 0 + a = a := by
  cases a
  show Q.add ⟨0, 1⟩ _ = _
  simp [Q.add]

theorem Q.add_zero (a : Q) : a + 0 = a := by
  cases a
  show Q.add _ ⟨0, 1⟩ = _
  simp [Q.add]

theorem Q.eqB_refl (a : Q) : Q.eqB a a = true := by
  simp [Q.eqB]

theorem Q.leB_total_of_not (a b : Q) (h : Q.leB a b = false) : Q.leB b a = true := by
  simp only [Q.leB, decide_eq_false_iff_not, decide_eq_true_eq] at *
  omega

/-! ## Claim C1 -/

theorem totalOf_foldl_shift (es : List Entry) :
    ∀ s : Q, es.foldl (fun s e => if e.has_no_bids then s else s + shownVal e) s =
      s + sumShown es := by
  induction es with
  | nil =>
    intro s
    show s = s + sumShown []
    rw [show sumShown [] = 0 from rfl, Q.add_zero]
  | cons e es ih =>
    intro s
    by_cases h : e.has_no_bids
    · have h2 : sumShown (e :: es) = sumShown es := by
        unfold sumShown
        rw [List.filter_cons, h]
        rfl
      simp only [List.foldl_cons, if_pos h, ih, h2]
    · have hf : e.has_no_bids = false := by
        cases hb : e.has_no_bids
        · rfl
        · exact absurd hb h
      have h2 : sumShown (e :: es) = shownVal e + sumShown es := by
        unfold sumShown
        rw [List.filter_cons, hf]
        rfl
      simp only [List.foldl_cons, if_neg h, ih, h2]
      rw [Q.add_assoc]

/-- Claim C1: the report total equals the sum of shown_amount over exactly
the entries whose has_no_bids flag is false (a non-numeric shown_amount
counting as zero, which is what shownVal does), and an entry with
has_no_bids true contributes nothing even when its shown_amount is a
non-null number. -/
theorem claim_C1 :
    (∀ es : List Entry, totalOf es = sumShown es) ∧
    (∀ (e : Entry) (es : List Entry),
      totalOf (e :: es) = if e.has_no_bids then totalOf es else shownVal e + totalOf es) := by
  have key : ∀ es : List Entry, totalOf es = sumShown es := by
    intro es
    show es.foldl _ 0 = _
    rw [totalOf_foldl_shift, Q.zero_add]
  refine ⟨key, fun e es => ?_⟩
  by_cases h : e.has_no_bids
  · show List.foldl _ _ _ = _
    simp only [List.foldl_cons, if_pos h, if_pos h]
    rfl
  · show List.foldl _ _ _ = _
    simp only [List.foldl_cons, if_neg h, if_neg h]
    rw [totalOf_foldl_shift, Q.zero_add, key]

theorem jsIsTrueB_iff (x : Option JsVal) : jsIsTrueB x = true ↔ x = some (JsVal.bool true) := by
  cases x with
  | none => simp [jsIsTrueB]
  | some v =>
    cases v with
    | bool b => cases b <;> simp [jsIsTrueB]
    | null => simp [jsIsTrueB]
    | num q => simp [jsIsTrueB]
    | str s => simp [jsIsTrueB]
    | arr xs => simp [jsIsTrueB]
    | obj fs => simp [jsIsTrueB]

theorem pickBidForLot_spec (rec : JsVal) (view : BidView)
    (h : pickBidForLot rec = some view) :
    view.current_bid = (if view.has_no_bids then some (qNat 0)
                        else toNumber (getProp (some rec) currentBidKey)) ∧
    view.has_no_bids = (jsIsTrueB (getProp (some rec) hasNoBidsKey) || view.bid_count == 0) := by
  simp only [pickBidForLot, Option.map_eq_some'] at h
  obtain ⟨bc, hbc, rfl⟩ := h
  exact ⟨rfl, rfl⟩

theorem entryFromLot_spec (t : List Char) (rec : JsVal) (e : Entry)
    (h : entryFromLot t rec = some e) :
    ∃ view, pickBidForLot rec = some view ∧
      e.lot = jsNumberOfString t ∧
      e.current_bid = view.current_bid ∧
      e.next_bid = view.next_bid ∧
      e.shown_amount = (if view.current_bid.isSome then view.current_bid
                        else if view.next_bid.isSome then view.next_bid else none) ∧
      e.bid_count = view.bid_count ∧
      e.has_no_bids = view.has_no_bids := by
  simp only [entryFromLot, Option.map_eq_some'] at h
  obtain ⟨view, hv, rfl⟩ := h
  exact ⟨view, hv, rfl, rfl, rfl, rfl, rfl, rfl⟩

/-- Claim C6 (amended): when the record's has_no_bids flag comes out false,
the entry's current_bid is toNumber of the record's current-bid field: the
numeric parse with comma separators stripped, null when the field is absent
or fails to parse as a finite number.  When the flag comes out true, the
code instead overrides current_bid to the number 0 (see the counterexample),
which the original claim misses. -/
theorem claim_C6_amended (rec : JsVal) (view : BidView)
    (hp : pickBidForLot rec = some view) (hfalse : view.has_no_bids = false) :
    view.current_bid = toNumber (getProp (some rec) currentBidKey) ∧
    (getProp (some rec) currentBidKey = none → view.current_bid = none) ∧
    (∀ s, getProp (some rec) currentBidKey = some (JsVal.str s) →
      view.current_bid = jsParseFloatFinite (s.filter (fun c => !(c == ',')))) := by
  have h1 := (pickBidForLot_spec rec view hp).1
  rw [hfalse] at h1
  simp only [Bool.false_eq_true, if_false] at h1
  refine ⟨h1, ?_, ?_⟩
  · intro habs
    rw [h1, habs]
    rfl
  · intro s hs
    rw [h1, hs]
    rfl

/-- Claim C6, counterexample: a record with no current_bid field at all gets
entry current_bid 0, not null, because its has_no_bids flag is true. -/
theorem claim_C6_cex :
    getProp (some recC6) currentBidKey = none ∧
    (pickBidForLot recC6).map (fun v => v.current_bid) = some (some (qNat 0)) :=
  ⟨rfl, rfl⟩

/-- Claim C6 witness at a concrete two-bid record. -/
theorem claim_C6_amended_witness :
    pickBidForLot recC6w = some viewC6w ∧
    viewC6w.current_bid = toNumber (getProp (some recC6w) currentBidKey) ∧
    toNumber (getProp (some recC6w) currentBidKey) = some ⟨140000, 100⟩ :=
  ⟨rfl, (claim_C6_amended recC6w viewC6w rfl rfl).1, rfl⟩

/-- Claim C7: the has_no_bids flag is true exactly when the record's
explicit has_no_bids field is strictly true or the parsed bid count is zero;
in particular " - 0 bids" bid-count text, or a missing bid-count field,
yields the flag true even with a numeric current_bid present. -/
theorem claim_C7 :
    (∀ (rec : JsVal) (view : BidView), pickBidForLot rec = some view →
      (view.has_no_bids = true ↔
        getProp (some rec) hasNoBidsKey = some (JsVal.bool true) ∨ view.bid_count = 0)) ∧
    (pickBidForLot recC7zero).map (fun v => v.has_no_bids) = some true ∧
    (pickBidForLot recC7miss).map (fun v => v.has_no_bids) = some true := by
  refine ⟨?_, rfl, rfl⟩
  intro rec view hp
  rw [(pickBidForLot_spec rec view hp).2]
  simp [jsIsTrueB_iff]

/-- Claim C7 witness: the theorem applied at the zero-bids record. -/
theorem claim_C7_witness :
    pickBidForLot recC7zero = some viewC7zero ∧ viewC7zero.has_no_bids = true :=
  ⟨rfl, (claim_C7.1 recC7zero viewC7zero rfl).mpr (Or.inr rfl)⟩

/-- Claim C10: a found lot whose has_no_bids flag ends up true always gets
current_bid and shown_amount 0 in its entry — never null, and never the
record's parsed current-bid value. -/
theorem claim_C10 (t : List Char) (rec : JsVal) (view : BidView) (e : Entry)
    (hp : pickBidForLot rec = some view) (htrue : view.has_no_bids = true)
    (he : entryFromLot t rec = some e) :
    e.current_bid = some (qNat 0) ∧ e.shown_amount = some (qNat 0) ∧
    e.current_bid ≠ none ∧ e.shown_amount ≠ none := by
  have hcb : view.current_bid = some (qNat 0) := by
    have h1 := (pickBidForLot_spec rec view hp).1
    rw [htrue] at h1
    simpa using h1
  obtain ⟨view2, hv2, hlot, hcb2, hnb2, hsh, hbc2, hnbids⟩ := entryFromLot_spec t rec e he
  have hvv : view2 = view := Option.some.inj (hv2.symm.trans hp)
  subst hvv
  rw [hcb] at hcb2 hsh
  simp only [Option.isSome_some, if_true] at hsh
  exact ⟨hcb2, hsh, by simp [hcb2], by simp [hsh]⟩

/-- Claim C10 witness: a record with four bids but an explicit no-bids flag,
whose parsed current bid 999 is discarded in favour of 0. -/
theorem claim_C10_witness :
    entryFromLot "10".data recC10 = some entC10 ∧
    entC10.current_bid = some (qNat 0) ∧ entC10.shown_amount = some (qNat 0) ∧
    toNumber (getProp (some recC10) currentBidKey) = some ⟨999, 1⟩ :=
  ⟨rfl, (claim_C10 "10".data recC10 viewC10 entC10 rfl rfl rfl).1,
   (claim_C10 "10".data recC10 viewC10 entC10 rfl rfl rfl).2.1, rfl⟩

/-! ## Claim C4: first-wins deduplication -/

theorem lookupMap_append_of_some (m : List (List Char × JsVal)) (p : List Char × JsVal)
    (k : List Char) (v : JsVal) (h : lookupMap m k = some v) :
    lookupMap (m ++ [p]) k = some v := by
  unfold lookupMap at *
  rw [List.find?_append]
  cases hf : m.find? (fun q => q.1 == k) with
  | none => rw [hf] at h; simp at h
  | some q => rw [hf] at h; simp [hf, h]

theorem foldl_mapInsert_keeps (lots : List JsVal) :
    ∀ (acc : List (List Char × JsVal)) (k : List Char) (v : JsVal),
      lookupMap acc k = some v → lookupMap (lots.foldl mapInsert acc) k = some v := by
  induction lots with
  | nil => intro acc k v h; exact h
  | cons y lots ih =>
    intro acc k v h
    rw [List.foldl_cons]
    apply ih
    unfold mapInsert
    by_cases hc : ((acc.find? (fun p => p.1 == keyOf y)).isSome : Prop)
    · simpa [hc] using h
    · simp only [hc, if_false]
      exact lookupMap_append_of_some _ _ _ _ h

theorem foldl_mapInsert_absent (lots : List JsVal) :
    ∀ (acc : List (List Char × JsVal)) (k : List Char),
      (∀ y ∈ lots, keyOf y ≠ k) → lookupMap acc k = none →
      lookupMap (lots.foldl mapInsert acc) k = none := by
  induction lots with
  | nil => intro acc k _ h; exact h
  | cons y lots ih =>
    intro acc k hk h
    rw [List.foldl_cons]
    apply ih _ _ (fun z hz => hk z (List.mem_cons_of_mem y hz))
    unfold mapInsert
    by_cases hc : ((acc.find? (fun p => p.1 == keyOf y)).isSome : Prop)
    · simpa [hc] using h
    · rw [if_neg hc]
      unfold lookupMap at *
      rw [List.find?_append]
      have hfind : acc.find? (fun q => q.1 == k) = none := by
        cases hf : acc.find? (fun q => q.1 == k) with
        | none => rfl
        | some q => rw [hf] at h; simp at h
      have hky : (keyOf y == k) = false := by
        simpa using hk y (List.mem_cons_self y lots)
      simp [hfind, List.find?, hky]

theorem mapInsert_new (acc : List (List Char × JsVal)) (x : JsVal) (k : List Char)
    (hx : keyOf x = k) (h : lookupMap acc k = none) :
    lookupMap (mapInsert acc x) k = some x := by
  unfold mapInsert
  unfold lookupMap at h
  have hfind : acc.find? (fun q => q.1 == k) = none := by
    cases hf : acc.find? (fun q => q.1 == k) with
    | none => rfl
    | some q => rw [hf] at h; simp at h
  rw [hx]
  rw [if_neg (by simp [hfind])]
  unfold lookupMap
  rw [List.find?_append, hfind]
  simp [List.find?]

/-- Claim C4: deduplication by lot identifier is first-wins — with the first
record carrying key k at an arbitrary position, the deduplicated map resolves
k to that record, whatever comes later; consequently the entry built for
that lot is derived from the first such record and later records with the
same identifier have no effect. -/
theorem claim_C4 (l1 : List JsVal) (x : JsVal) (l2 : List JsVal) (k : List Char)
    (hx : keyOf x = k) (hfirst : ∀ y ∈ l1, keyOf y ≠ k) :
    lookupMap (lotMapOf (l1 ++ x :: l2)) k = some x ∧
    buildEntryFor (lotMapOf (l1 ++ x :: l2)) k = buildEntryFor (lotMapOf (l1 ++ [x])) k := by
  have key : ∀ l2 : List JsVal, lookupMap (lotMapOf (l1 ++ x :: l2)) k = some x := by
    intro l2
    unfold lotMapOf
    rw [List.foldl_append, List.foldl_cons]
    apply foldl_mapInsert_keeps
    apply mapInsert_new _ _ _ hx
    exact foldl_mapInsert_absent l1 [] k hfirst rfl
  refine ⟨key l2, ?_⟩
  unfold buildEntryFor
  rw [key l2, show lotMapOf (l1 ++ [x]) = lotMapOf (l1 ++ x :: []) from rfl, key []]

/-- Claim C4 witness: two records with the same trimmed lot number "5"; the
map keeps the first (whose current_bid is "100.00"). -/
theorem claim_C4_witness :
    keyOf recC4a = "5".data ∧
    lookupMap (lotMapOf [recC4a, recC4b]) "5".data = some recC4a :=
  ⟨rfl, (claim_C4 [] recC4a [recC4b] "5".data rfl (by intro y hy; simp at hy)).1⟩

/-! ## Sorting lemmas -/

theorem leLotB_total (a b : Entry) (h : leLotB a b = false) : leLotB b a = true := by
  unfold leLotB at *
  cases ha : a.lot with
  | none => rw [ha] at h; cases b.lot <;> simp at h
  | some x =>
    cases hb : b.lot with
    | none => simp
    | some y =>
      rw [ha, hb] at h
      exact Q.leB_total_of_not x y h

theorem insertE_perm (e : Entry) (l : List Entry) : (insertE e l).Perm (e :: l) := by
  induction l with
  | nil => exact List.Perm.refl _
  | cons x xs ih =>
    unfold insertE
    by_cases h : leLotB e x = true
    · rw [if_pos h]
    · rw [if_neg h]
      exact (ih.cons x).trans (List.Perm.swap e x xs)

theorem sortE_perm (l : List Entry) : (sortE l).Perm l := by
  induction l with
  | nil => exact List.Perm.refl _
  | cons x xs ih =>
    exact (insertE_perm x (sortE xs)).trans (ih.cons x)

theorem sortedB_insertE (e : Entry) (l : List Entry) (h : sortedByLotB l = true) :
    sortedByLotB (insertE e l) = true := by
  induction l with
  | nil => rfl
  | cons x xs ih =>
    unfold insertE
    by_cases hle : leLotB e x = true
    · rw [if_pos hle]
      simp only [sortedByLotB, hle, Bool.true_and]
      exact h
    · rw [if_neg hle]
      have hxe : leLotB x e = true := leLotB_total e x (by simpa using hle)
      cases xs with
      | nil => simp [insertE, sortedByLotB, hxe]
      | cons y ys =>
        simp only [sortedByLotB, Bool.and_eq_true] at h
        have hrest := ih h.2
        unfold insertE at hrest ⊢
        by_cases hey : leLotB e y = true
        · rw [if_pos hey] at hrest ⊢
          simp only [sortedByLotB, Bool.and_eq_true] at hrest ⊢
          exact ⟨hxe, hrest⟩
        · rw [if_neg hey] at hrest ⊢
          simp only [sortedByLotB, Bool.and_eq_true] at hrest ⊢
          exact ⟨h.1, hrest⟩

theorem sortE_sorted (l : List Entry) : sortedByLotB (sortE l) = true := by
  induction l with
  | nil => rfl
  | cons x xs ih => exact sortedB_insertE x (sortE xs) ih

/-! ## Pipeline lemmas -/

theorem buildEntries1_eq_map (m : List (List Char × JsVal)) (ts : List (List Char)) :
    ∀ es1, buildEntries1 m ts = some es1 →
      es1 = ts.map (fun t => (buildEntryFor m t).getD (placeholderE t)) := by
  induction ts with
  | nil =>
    intro es1 h
    simp only [buildEntries1, Option.some.injEq] at h
    simp [h.symm]
  | cons t ts ih =>
    intro es1 h
    unfold buildEntries1 at h
    cases hbf : buildEntryFor m t with
    | none => rw [hbf] at h; exact absurd h (by simp)
    | some e =>
      rw [hbf] at h
      simp only [Option.map_eq_some'] at h
      obtain ⟨l, hl, rfl⟩ := h
      simp [List.map_cons, hbf, ih l hl]

theorem buildEntries1_each_some (m : List (List Char × JsVal)) (ts : List (List Char)) :
    ∀ es1, buildEntries1 m ts = some es1 → ∀ t ∈ ts, ∃ e, buildEntryFor m t = some e := by
  induction ts with
  | nil => intro es1 _ t ht; exact absurd ht (by simp)
  | cons t0 ts ih =>
    intro es1 h t ht
    unfold buildEntries1 at h
    cases hbf : buildEntryFor m t0 with
    | none => rw [hbf] at h; exact absurd h (by simp)
    | some e =>
      rw [hbf] at h
      simp only [Option.map_eq_some'] at h
      obtain ⟨l, hl, _⟩ := h
      rcases List.mem_cons.mp ht with rfl | hmem
      · exact ⟨e, hbf⟩
      · exact ih l hl t hmem

theorem buildEntries1_mem (m : List (List Char × JsVal)) (ts : List (List Char))
    (t : List Char) (es1 : List Entry) (e : Entry)
    (hb : buildEntries1 m ts = some es1) (ht : t ∈ ts) (he : buildEntryFor m t = some e) :
    e ∈ es1 := by
  rw [buildEntries1_eq_map m ts es1 hb]
  have h2 : e = (buildEntryFor m t).getD (placeholderE t) := by rw [he]; rfl
  rw [h2]
  exact List.mem_map_of_mem _ ht

theorem buildEntryFor_lot (m : List (List Char × JsVal)) (t : List Char) (e : Entry)
    (h : buildEntryFor m t = some e) : e.lot = jsNumberOfString t := by
  unfold buildEntryFor at h
  cases hl : lookupMap m t with
  | none =>
    rw [hl] at h
    have := Option.some.inj h
    rw [this.symm]
    rfl
  | some lot =>
    rw [hl] at h
    obtain ⟨view, _, hlot, _⟩ := entryFromLot_spec t lot e h
    exact hlot

theorem ensureLoop_mem (ts : List (List Char)) :
    ∀ (acc : List Entry) (e : Entry), e ∈ acc → e ∈ ensureLoop ts acc := by
  induction ts with
  | nil => intro acc e h; exact h
  | cons t ts ih =>
    intro acc e h
    show e ∈ List.foldl _ _ _
    rw [List.foldl_cons]
    apply ih
    by_cases hc : acc.any (fun e => jsEqOptQ e.lot (jsNumberOfString t)) = true
    · rw [if_pos hc]; exact h
    · rw [if_neg hc]; exact List.mem_append_left _ h

theorem ensureLoop_noop (ts : List (List Char)) :
    ∀ acc : List Entry,
      (∀ t ∈ ts, acc.any (fun e => jsEqOptQ e.lot (jsNumberOfString t)) = true) →
      ensureLoop ts acc = acc := by
  induction ts with
  | nil => intro acc _; rfl
  | cons t ts ih =>
    intro acc h
    show List.foldl _ _ _ = acc
    rw [List.foldl_cons, if_pos (h t (List.mem_cons_self t ts))]
    exact ih acc (fun z hz => h z (List.mem_cons_of_mem t hz))

theorem mainEntries_decompose (html : List Char) (targets : List (List Char)) (fuel : Nat)
    (es : List Entry) (h : mainEntries html targets fuel = some es) :
    ∃ lots es1, extractLotObjects html fuel = some lots ∧
      buildEntries1 (lotMapOf lots) targets = some es1 ∧
      es = sortE (ensureLoop targets es1) := by
  unfold mainEntries at h
  cases hx : extractLotObjects html fuel with
  | none => rw [hx] at h; exact absurd h (by simp)
  | some lots =>
    rw [hx] at h
    simp only [Option.some_bind, Option.map_eq_some'] at h
    obtain ⟨es1, hb, hes⟩ := h
    exact ⟨lots, es1, rfl, hb, hes.symm⟩

theorem jsEqOptQ_self (q : Q) : jsEqOptQ (some q) (some q) = true := by
  simp [jsEqOptQ, Q.eqB]

/-! ## Generic unfolding equations for the extractor loop -/

theorem extractRun_step_eq (hay : List Char) (f idx : Nat) (res : List JsVal)
    (idx2 : Nat) (o : Option JsVal) (h : extractStep hay idx = some (idx2, o)) :
    extractRun hay (f + 1) idx res = extractRun hay f idx2 (res ++ o.toList) := by
  simp [extractRun, h]

theorem extractRun_done_eq (hay : List Char) (f idx : Nat) (res : List JsVal)
    (h : extractStep hay idx = none) :
    extractRun hay (f + 1) idx res = some res := by
  simp [extractRun, h]

/-- The C9 page extracts to exactly the example object, whatever the fuel. -/
theorem extract_h9_eq (fuel : Nat) (lots : List JsVal)
    (h : extractLotObjects h9 fuel = some lots) : lots = [obj9] := by
  match fuel with
  | 0 => exact absurd h (by simp [extractLotObjects, extractRun])
  | 1 =>
    rw [extractLotObjects, extractRun_step_eq h9 0 0 [] 70 (some obj9) rfl] at h
    exact absurd h (by simp [extractRun])
  | f + 2 =>
    rw [extractLotObjects, extractRun_step_eq h9 (f + 1) 0 [] 70 (some obj9) rfl,
      show ([] : List JsVal) ++ (some obj9).toList = [obj9] from rfl,
      extractRun_done_eq h9 f 70 [obj9] rfl] at h
    exact (Option.some.inj h).symm

/-! ## Claims C3, C9, C2 -/

/-- Claim C3: a requested lot absent from the deduplicated lot map always
yields the all-null placeholder entry with has_no_bids true. -/
theorem claim_C3 (html : List Char) (fuel : Nat) (lots : List JsVal)
    (targets : List (List Char)) (t : List Char) (es : List Entry)
    (hx : extractLotObjects html fuel = some lots)
    (hm : mainEntries html targets fuel = some es)
    (ht : t ∈ targets)
    (habs : lookupMap (lotMapOf lots) t = none) :
    ∃ e ∈ es, e.lot = jsNumberOfString t ∧ e.current_bid = none ∧ e.next_bid = none ∧
      e.shown_amount = none ∧ e.status = JsVal.null ∧ e.estimate = JsVal.null ∧
      e.bid_text = JsVal.null ∧ e.has_no_bids = true := by
  obtain ⟨lots2, es1, hx2, hb, hes⟩ := mainEntries_decompose html targets fuel es hm
  have hl : lots2 = lots := Option.some.inj (hx2.symm.trans hx)
  subst hl
  have hbf : buildEntryFor (lotMapOf lots2) t = some (placeholderE t) := by
    unfold buildEntryFor
    rw [habs]
  have hmem1 : placeholderE t ∈ es1 := buildEntries1_mem _ _ t es1 _ hb ht hbf
  have hmem : placeholderE t ∈ es := by
    rw [hes]
    exact ((sortE_perm _).mem_iff).mpr (ensureLoop_mem targets es1 _ hmem1)
  exact ⟨placeholderE t, hmem, rfl, rfl, rfl, rfl, rfl, rfl, rfl, rfl⟩

/-- Claim C3 witness: the empty page with requested lot "5". -/
theorem claim_C3_witness :
    ∃ e ∈ [placeholderE "5".data], e.current_bid = none ∧ e.shown_amount = none ∧
      e.status = JsVal.null ∧ e.has_no_bids = true := by
  obtain ⟨e, hm, _, h1, _, h2, h3, _, _, h4⟩ :=
    claim_C3 [] 1 [] ["5".data] "5".data [placeholderE "5".data] rfl rfl
      (List.mem_singleton.mpr rfl) rfl
  exact ⟨e, hm, h1, h2, h3, h4⟩

/-- Claim C9: any run over the example page that requests lot 5 produces an
entry with lot 5, current_bid 1400 (as the exact value 140000/100),
bid_count 3 and has_no_bids false. -/
theorem claim_C9 (targets : List (List Char)) (fuel : Nat) (es : List Entry)
    (hm : mainEntries h9 targets fuel = some es) (ht : "5".data ∈ targets) :
    ∃ e ∈ es, e.lot = some ⟨5, 1⟩ ∧ e.current_bid = some ⟨140000, 100⟩ ∧
      Q.eqB ⟨140000, 100⟩ (qNat 1400) = true ∧ e.bid_count = 3 ∧ e.has_no_bids = false := by
  obtain ⟨lots, es1, hx, hb, hes⟩ := mainEntries_decompose h9 targets fuel es hm
  have hl : lots = [obj9] := extract_h9_eq fuel lots hx
  subst hl
  have hbf : buildEntryFor (lotMapOf [obj9]) "5".data = some e9 := rfl
  have hmem1 : e9 ∈ es1 := buildEntries1_mem _ _ _ es1 _ hb ht hbf
  have hmem : e9 ∈ es := by
    rw [hes]
    exact ((sortE_perm _).mem_iff).mpr (ensureLoop_mem targets es1 e9 hmem1)
  exact ⟨e9, hmem, rfl, rfl, rfl, rfl, rfl⟩

/-- Claim C9 witness: the whole pipeline evaluated on the example page. -/
theorem claim_C9_witness :
    mainEntries h9 ["5".data] 2 = some [e9] ∧
    ∃ e ∈ [e9], e.lot = some ⟨5, 1⟩ ∧ e.current_bid = some ⟨140000, 100⟩ ∧
      e.bid_count = 3 ∧ e.has_no_bids = false := by
  refine ⟨rfl, ?_⟩
  obtain ⟨e, hm, h1, h2, _, h4, h5⟩ :=
    claim_C9 ["5".data] 2 [e9] rfl (List.mem_singleton.mpr rfl)
  exact ⟨e, hm, h1, h2, h4, h5⟩

/-- Claim C2 (amended): provided every requested identifier converts to an
actual number under Number(), the entries array is, up to order, exactly the
one-entry-per-identifier list, is sorted ascending by numeric lot id, has
one entry carrying each identifier's numeric id, and has exactly one entry
per identifier.  (For a non-numeric identifier the claim fails: the NaN lot
defeats the duplicate check of the second loop — see the counterexample.) -/
theorem claim_C2_amended (html : List Char) (fuel : Nat) (lots : List JsVal)
    (targets : List (List Char)) (es : List Entry)
    (hx : extractLotObjects html fuel = some lots)
    (hm : mainEntries html targets fuel = some es)
    (hnum : ∀ t ∈ targets, (jsNumberOfString t).isSome = true) :
    es.Perm (targets.map (fun t => (buildEntryFor (lotMapOf lots) t).getD (placeholderE t))) ∧
    sortedByLotB es = true ∧
    (∀ t ∈ targets, ∃ e ∈ es, e.lot = jsNumberOfString t) ∧
    es.length = targets.length := by
  obtain ⟨lots2, es1, hx2, hb, hes⟩ := mainEntries_decompose html targets fuel es hm
  have hl : lots2 = lots := Option.some.inj (hx2.symm.trans hx)
  subst hl
  have hany : ∀ t ∈ targets, es1.any (fun e => jsEqOptQ e.lot (jsNumberOfString t)) = true := by
    intro t ht
    obtain ⟨e, hbf⟩ := buildEntries1_each_some _ targets es1 hb t ht
    have hmem : e ∈ es1 := buildEntries1_mem _ targets t es1 e hb ht hbf
    have hlot : e.lot = jsNumberOfString t := buildEntryFor_lot _ t e hbf
    obtain ⟨q, hq⟩ := Option.isSome_iff_exists.mp (hnum t ht)
    rw [List.any_eq_true]
    exact ⟨e, hmem, by rw [hlot, hq]; exact jsEqOptQ_self q⟩
  have hnoop : ensureLoop targets es1 = es1 := ensureLoop_noop targets es1 hany
  rw [hnoop] at hes
  have hperm : es.Perm es1 := by
    rw [hes]
    exact sortE_perm es1
  have hmap := buildEntries1_eq_map _ targets es1 hb
  refine ⟨?_, ?_, ?_, ?_⟩
  · rw [← hmap]
    exact hperm
  · rw [hes]
    exact sortE_sorted es1
  · intro t ht
    obtain ⟨e, hbf⟩ := buildEntries1_each_some _ targets es1 hb t ht
    have hmem : e ∈ es1 := buildEntries1_mem _ targets t es1 e hb ht hbf
    exact ⟨e, hperm.mem_iff.mpr hmem, buildEntryFor_lot _ t e hbf⟩
  · rw [hperm.length_eq, hmap, List.length_map]

/-- Claim C2, counterexample: a single requested identifier whose Number()
conversion is NaN produces two entries, because the placeholder pushed by
the first loop has a NaN lot and NaN === NaN is false in the second loop's
duplicate check. -/
theorem claim_C2_cex :
    mainEntries [] ["abc".data] 1 =
      some [placeholderE "abc".data, placeholderE "abc".data] ∧
    (["abc".data] : List (List Char)).length = 1 ∧
    jsNumberOfString "abc".data = none :=
  ⟨rfl, rfl, rfl⟩

/-- Claim C2 witness: the example page with the single numeric target "5". -/
theorem claim_C2_amended_witness :
    ([e9] : List Entry).Perm
      (["5".data].map (fun t => (buildEntryFor (lotMapOf [obj9]) t).getD (placeholderE t))) ∧
    sortedByLotB [e9] = true ∧ ([e9] : List Entry).length = ["5".data].length := by
  have h := claim_C2_amended h9 2 [obj9] ["5".data] [e9] rfl rfl
    (fun t ht => by rw [List.mem_singleton.mp ht]; rfl)
  exact ⟨h.1, h.2.1, h.2.2.2⟩

/-! ## Claim C8: the extractor does not terminate on h8 -/

theorem extractRun_h8_stuck (f : Nat) : ∀ res, extractRun h8 f 12 res = none := by
  induction f with
  | zero => intro res; rfl
  | succ f ih =>
    intro res
    rw [extractRun_step_eq h8 f 12 res 12 (some obj8) rfl]
    exact ih (res ++ (some obj8).toList)

/-- Claim C8: refuted as stated — on the page h8 the loop never exits, for
any fuel, because the backward scan stops at the nearest brace (the nested
object's), not the nearest unmatched one, and the cursor set past that inner
object lands before the marker again: the step at cursor 12 reproduces
cursor 12 forever. -/
theorem claim_C8 :
    (∀ fuel : Nat, extractLotObjects h8 fuel = none) ∧
    extractStep h8 12 = some (12, some obj8) ∧
    extractStep h8 0 = some (12, some obj8) := by
  refine ⟨?_, rfl, rfl⟩
  intro fuel
  match fuel with
  | 0 => rfl
  | f + 1 =>
    rw [extractLotObjects, extractRun_step_eq h8 f 0 [] 12 (some obj8) rfl]
    exact extractRun_h8_stuck f _

/-! ## Scanner lemmas for claim C5 -/

theorem getC_cons_succ (c : Char) (l : List Char) (i : Nat) :
    getC (c :: l) (i + 1) = getC l i := rfl

theorem getC_drop_head (hay : List Char) (pos : Nat) (c : Char) (cs : List Char)
    (h : hay.drop pos = c :: cs) : getC hay pos = c := by
  have h0 : hay.get? pos = some c := by
    have h1 := List.getElem?_drop hay pos 0
    rw [h] at h1
    simpa using h1.symm
  unfold getC
  rw [List.getD_eq_getD_get?, h0]
  rfl

theorem drop_succ_of_drop (hay : List Char) (pos : Nat) (c : Char) (cs : List Char)
    (h : hay.drop pos = c :: cs) : hay.drop (pos + 1) = cs := by
  have h2 : hay.drop (pos + 1) = (hay.drop pos).drop 1 := by
    rw [List.drop_drop, Nat.add_comm]
  rw [h2, h]
  rfl

theorem lt_length_of_drop_cons (hay : List Char) (pos : Nat) (c : Char) (cs : List Char)
    (h : hay.drop pos = c :: cs) : pos < hay.length := by
  by_contra hge
  rw [List.drop_eq_nil_of_le (Nat.le_of_not_lt hge)] at h
  exact List.noConfusion h

theorem braceFreeB_append (a b : List Char) :
    braceFreeB (a ++ b) = (braceFreeB a && braceFreeB b) := by
  unfold braceFreeB
  exact List.all_append

theorem braceFreeB_head (c : Char) (cs : List Char) (h : braceFreeB (c :: cs) = true) :
    (c == '{') = false ∧ (c == '}') = false ∧ braceFreeB cs = true := by
  unfold braceFreeB at h
  simp only [List.all_cons, Bool.and_eq_true, Bool.not_eq_true'] at h
  exact ⟨h.1.1, h.1.2, h.2⟩

/-- Forward depth scan across a brace-free middle at depth 1 stops at the
closing brace. -/
theorem braceScan_flat (hay : List Char) (rest : List Char) (w : List Char)
    (hw : braceFreeB w = true) :
    ∀ (pos fl : Nat), hay.drop pos = w ++ '}' :: rest → w.length + 1 ≤ fl →
      braceScan hay pos 1 fl = some (pos + w.length) := by
  induction w with
  | nil =>
    intro pos fl hd hfl
    match fl, hfl with
    | g + 1, _ =>
      unfold braceScan
      rw [if_pos (lt_length_of_drop_cons hay pos '}' rest hd)]
      rw [getC_drop_head hay pos '}' rest hd]
      simp
  | cons c w ih =>
    intro pos fl hd hfl
    obtain ⟨hc1, hc2, hw2⟩ := braceFreeB_head c (w) hw
    match fl, hfl with
    | g + 1, hfl =>
      unfold braceScan
      rw [if_pos (lt_length_of_drop_cons hay pos c _ (by simpa using hd))]
      rw [getC_drop_head hay pos c _ (by simpa using hd)]
      simp only [hc1, hc2, Bool.false_eq_true, if_false]
      have hd2 : hay.drop (pos + 1) = w ++ '}' :: rest :=
        drop_succ_of_drop hay pos c _ (by simpa using hd)
      rw [ih hw2 (pos + 1) g hd2 (by simpa [Nat.succ_le_succ_iff] using hfl)]
      congr 1
      simp [List.length_cons]
      omega

/-- Opening a candidate: the first forward-scan step from the brace. -/
theorem braceScan_open (hay : List Char) (pos fl : Nat)
    (hlt : pos < hay.length) (hc : getC hay pos = '{') :
    braceScan hay pos 0 (fl + 1) = braceScan hay (pos + 1) 1 fl := by
  conv_lhs => rw [braceScan]
  rw [if_pos hlt, hc]
  simp

theorem findSubA_spec (needle hay : List Char) :
    ∀ (fl idx p : Nat), findSubA needle hay idx fl = some p →
      idx ≤ p ∧ needle.isPrefixOf (hay.drop p) = true ∧
      ∀ i, idx ≤ i → i < p → needle.isPrefixOf (hay.drop i) = false := by
  intro fl
  induction fl with
  | zero => intro idx p h; exact absurd h (by simp [findSubA])
  | succ fl ih =>
    intro idx p h
    unfold findSubA at h
    by_cases hpre : needle.isPrefixOf (hay.drop idx) = true
    · rw [if_pos hpre] at h
      have hp := Option.some.inj h
      subst hp
      exact ⟨Nat.le_refl idx, hpre, fun i h1 h2 => absurd (Nat.lt_of_le_of_lt h1 h2) (Nat.lt_irrefl idx)⟩
    · rw [if_neg hpre] at h
      by_cases hlen : hay.length ≤ idx
      · rw [if_pos hlen] at h
        exact absurd h (by simp)
      · rw [if_neg hlen] at h
        obtain ⟨h1, h2, h3⟩ := ih (idx + 1) p h
        refine ⟨Nat.le_of_succ_le h1, h2, fun i hi1 hi2 => ?_⟩
        rcases Nat.eq_or_lt_of_le hi1 with rfl | hlt
        · exact Bool.of_not_eq_true hpre
        · exact h3 i hlt hi2

theorem findSubA_found (needle hay : List Char) (hne : needle ≠ []) :
    ∀ (fl idx q : Nat), needle.isPrefixOf (hay.drop q) = true → idx ≤ q → q < idx + fl →
      ∃ p, findSubA needle hay idx fl = some p ∧ p ≤ q := by
  intro fl
  induction fl with
  | zero => intro idx q _ hle hlt; omega
  | succ fl ih =>
    intro idx q hq hle hlt
    unfold findSubA
    by_cases hpre : needle.isPrefixOf (hay.drop idx) = true
    · exact ⟨idx, by rw [if_pos hpre], hle⟩
    · rw [if_neg hpre]
      have hne2 : idx ≠ q := by
        intro hEq
        rw [hEq] at hpre
        exact hpre hq
      have hltq : idx < q := Nat.lt_of_le_of_ne hle hne2
      have hqlen : q < hay.length := by
        cases hd : hay.drop q with
        | nil =>
          rw [hd] at hq
          cases needle with
          | nil => exact absurd rfl hne
          | cons c cs => exact absurd hq (by simp [List.isPrefixOf])
        | cons d ds => exact lt_length_of_drop_cons hay q d ds hd
      rw [if_neg (by omega : ¬hay.length ≤ idx)]
      obtain ⟨p, hp, hpq⟩ := ih (idx + 1) q hq hltq (by omega)
      exact ⟨p, hp, hpq⟩

/-- Existence plus least-ness of the marker search. -/
theorem findSub_found (needle hay : List Char) (idx q : Nat) (hne : needle ≠ [])
    (hq : needle.isPrefixOf (hay.drop q) = true) (hiq : idx ≤ q) :
    ∃ p, findSub needle hay idx = some p ∧ idx ≤ p ∧ p ≤ q ∧
      needle.isPrefixOf (hay.drop p) = true ∧
      ∀ i, idx ≤ i → i < p → needle.isPrefixOf (hay.drop i) = false := by
  have hqlen : q < hay.length := by
    cases hd : hay.drop q with
    | nil =>
      rw [hd] at hq
      cases needle with
      | nil => exact absurd rfl hne
      | cons c cs => exact absurd hq (by simp [List.isPrefixOf])
    | cons d ds => exact lt_length_of_drop_cons hay q d ds hd
  obtain ⟨p, hp, hpq⟩ :=
    findSubA_found needle hay hne (hay.length + 1 - idx) idx q hq hiq (by omega)
  obtain ⟨h1, h2, h3⟩ := findSubA_spec needle hay (hay.length + 1 - idx) idx p hp
  exact ⟨p, hp, h1, hpq, h2, h3⟩

theorem findSub_none (needle hay : List Char) (idx : Nat)
    (h : ∀ i, idx ≤ i → needle.isPrefixOf (hay.drop i) = false) :
    findSub needle hay idx = none := by
  unfold findSub
  have aux : ∀ (fl j : Nat), idx ≤ j → findSubA needle hay j fl = none := by
    intro fl
    induction fl with
    | zero => intro j _; rfl
    | succ fl ih =>
      intro j hj
      unfold findSubA
      rw [h j hj]
      simp only [Bool.false_eq_true, if_false]
      by_cases hlen : hay.length ≤ j
      · rw [if_pos hlen]
      · rw [if_neg hlen]
        exact ih (j + 1) (Nat.le_succ_of_le hj)
  exact aux (hay.length + 1 - idx) idx (Nat.le_refl idx)

theorem scanLeftBrace_zero (hay : List Char) :
    ∀ p : Nat, (∀ i, 1 ≤ i → i ≤ p → getC hay i ≠ '{') → scanLeftBrace hay p = 0 := by
  intro p
  induction p with
  | zero => intro _; rfl
  | succ p ih =>
    intro h
    unfold scanLeftBrace
    rw [show (getC hay (p + 1) == '{') = false by
      simpa using h (p + 1) (by omega) (Nat.le_refl _)]
    simp only [Bool.false_eq_true, if_false]
    exact ih (fun i h1 h2 => h i h1 (Nat.le_succ_of_le h2))

theorem scanLeftBrace_skip (hay : List Char) (i : Nat) (h : getC hay (i + 1) ≠ '{') :
    scanLeftBrace hay (i + 1) = scanLeftBrace hay i := by
  conv_lhs => rw [scanLeftBrace]
  rw [show (getC hay (i + 1) == '{') = false by simpa using h]
  simp

theorem scanLeftBrace_stop (hay : List Char) (i : Nat) (h : getC hay (i + 1) = '{') :
    scanLeftBrace hay (i + 1) = i + 1 := by
  conv_lhs => rw [scanLeftBrace]
  rw [show (getC hay (i + 1) == '{') = true by simpa using h]
  simp

theorem marker_not_prefix_brace (xs : List Char) :
    markerK.isPrefixOf ('{' :: xs) = false := by
  rw [show markerK = '"' :: "lot_number\"".data from rfl]
  simp [List.isPrefixOf]

theorem markerK_ne_nil : markerK ≠ [] := by
  rw [show markerK = '"' :: "lot_number\"".data from rfl]
  exact List.cons_ne_nil _ _

theorem braceFree_getC (w : List Char) (hw : braceFreeB w = true) (j : Nat)
    (hj : j < w.length) : getC w j ≠ '{' ∧ getC w j ≠ '}' := by
  have hmem : getC w j ∈ w := by
    unfold getC
    rw [List.getD_eq_getElem w '\x00' hj]
    exact List.getElem_mem hj
  unfold braceFreeB at hw
  have := List.all_eq_true.mp hw _ hmem
  simp only [Bool.and_eq_true, Bool.not_eq_true'] at this
  exact ⟨by simpa using this.1, by simpa using this.2⟩

/-- The whole body of one loop iteration, given the results of its three
scans. -/
theorem extractStep_compute (hay : List Char) (idx p st endP : Nat)
    (hfs : findSub markerK hay idx = some p)
    (hscan : scanLeftBrace hay p = st)
    (hopen : getC hay st = '{')
    (hbs : braceScan hay st 0 (hay.length + 1) = some endP) :
    extractStep hay idx =
      some (endP + 1, jsonParse (jsClean ((hay.drop st).take (endP + 1 - st)))) := by
  unfold extractStep
  rw [hfs]
  simp only [hscan, hopen, hbs]
  simp

theorem extractStep_none_of (hay : List Char) (idx : Nat)
    (hfs : findSub markerK hay idx = none) : extractStep hay idx = none := by
  unfold extractStep
  rw [hfs]

/-- The backward scan passes over a brace-free stretch unchanged. -/
theorem scanLeftBrace_descend (hay : List Char) :
    ∀ (p s : Nat), s ≤ p → (∀ i, s < i → i ≤ p → getC hay i ≠ '{') →
      scanLeftBrace hay p = scanLeftBrace hay s := by
  intro p
  induction p with
  | zero =>
    intro s hs _
    rw [Nat.le_zero.mp hs]
  | succ p ih =>
    intro s hs h
    rcases Nat.eq_or_lt_of_le hs with rfl | hlt
    · rfl
    · rw [scanLeftBrace_skip hay p (h (p + 1) hlt (Nat.le_refl _))]
      exact ih s (by omega) (fun i h1 h2 => h i h1 (Nat.le_succ_of_le h2))

/-- Results already collected are never dropped: whatever the loop returns
extends them. -/
theorem extractRun_mono (hay : List Char) :
    ∀ (f idx : Nat) (res out : List JsVal), extractRun hay f idx res = some out →
      ∀ x ∈ res, x ∈ out := by
  intro f
  induction f with
  | zero =>
    intro idx res out h
    rw [show extractRun hay 0 idx res = none from rfl] at h
    exact absurd h (by simp)
  | succ f ih =>
    intro idx res out h x hx
    cases hs : extractStep hay idx with
    | none =>
      rw [extractRun_done_eq hay f idx res hs] at h
      rw [← Option.some.inj h]
      exact hx
    | some pr =>
      obtain ⟨i2, o⟩ := pr
      rw [extractRun_step_eq hay f idx res i2 o hs] at h
      exact ih i2 (res ++ o.toList) out h x (List.mem_append_left _ hx)

/-- Claim C5 (amended): over a page of the shape
prefix ++ M ++ sep ++ V ++ tail, where M is a malformed candidate that is a
single balanced brace pair with a brace-free marker-bearing interior whose
cleaned text fails strict JSON parsing, V is a syntactically valid JSON
object whose first key is the marker and whose interior is otherwise
brace-free, no marker occurrence starts at or before the prefix, and no
marker occurrence starts in the separator region: the extractor discards M
and, whenever it returns at all, the parse of V is among its results; if
moreover the tail holds no marker occurrence the extractor exits after the
three iterations and returns exactly the parse of V.  Each restriction is
forced by a counterexample: as stated over arbitrary HTML the claim is
false (claim_C5_cex — a brace inside one of the valid object's string
values makes the backward scan misfire and the object is lost, and an
unbalanced marker-bearing candidate swallows the following object
entirely). -/
theorem claim_C5_amended (pre u1 u2 g r t U m v html : List Char) (obj : JsVal)
    (hU : U = u1 ++ (markerK ++ u2))
    (hm : m = '{' :: (U ++ ['}']))
    (hv : v = '{' :: ((markerK ++ r) ++ ['}']))
    (hhtml : html = pre ++ (m ++ (g ++ (v ++ t))))
    (hbf1 : braceFreeB u1 = true) (hbf2 : braceFreeB u2 = true)
    (hbfr : braceFreeB r = true)
    (hpre : ∀ i, i ≤ pre.length → markerK.isPrefixOf (html.drop i) = false)
    (hsep : ∀ i, pre.length + m.length ≤ i → i ≤ pre.length + m.length + g.length →
      markerK.isPrefixOf (html.drop i) = false)
    (hmp : jsonParse (jsClean m) = none)
    (hvp : jsonParse (jsClean v) = some obj) :
    (∀ fuel out, extractLotObjects html fuel = some out → obj ∈ out) ∧
    ((∀ j, markerK.isPrefixOf (t.drop j) = false) →
      ∀ f, extractLotObjects html (f + 3) = some [obj]) := by
  have hmk12 : markerK.length = 12 := rfl
  have hmkbf : braceFreeB markerK = true := rfl
  have hUbf : braceFreeB U = true := by
    rw [hU, braceFreeB_append, braceFreeB_append, hbf1, hmkbf, hbf2]
    rfl
  have hmlen : m.length = U.length + 2 := by
    rw [hm]
    simp only [List.length_cons, List.length_append, List.length_nil]
  have hvlen : v.length = markerK.length + r.length + 2 := by
    rw [hv]
    simp only [List.length_cons, List.length_append, List.length_nil]
  have hUlen : u1.length + 1 ≤ U.length := by
    rw [hU]
    simp only [List.length_append, hmk12]
    omega
  have hhtmllen : html.length =
      pre.length + (m.length + (g.length + (v.length + t.length))) := by
    rw [hhtml]
    simp [List.length_append]
  have hdropPre : html.drop pre.length = m ++ (g ++ (v ++ t)) := by
    rw [hhtml]
    exact List.drop_left _ _
  have hdropPreC : html.drop pre.length = '{' :: ((U ++ ['}']) ++ (g ++ (v ++ t))) := by
    rw [hdropPre, hm, List.cons_append]
  have hdropPre1 : html.drop (pre.length + 1) = U ++ ('}' :: (g ++ (v ++ t))) := by
    rw [drop_succ_of_drop html pre.length '{' _ hdropPreC]
    simp [List.append_assoc]
  have hgetPre : getC html pre.length = '{' := getC_drop_head html pre.length '{' _ hdropPreC
  -- iteration 1: the marker is found inside the malformed candidate
  have hsplit1 : html =
      (pre ++ '{' :: u1) ++ (markerK ++ (u2 ++ ('}' :: (g ++ (v ++ t))))) := by
    rw [hhtml, hm, hU]
    simp [List.append_assoc, List.cons_append]
  have hocc1 : markerK.isPrefixOf (html.drop (pre.length + 1 + u1.length)) = true := by
    rw [hsplit1, show pre.length + 1 + u1.length = (pre ++ '{' :: u1).length by
      simp only [List.length_append, List.length_cons]; omega]
    rw [List.drop_left, List.isPrefixOf_iff_prefix]
    exact List.prefix_append _ _
  obtain ⟨p, hfs, hp0, hpq, hppre, hpleast⟩ :=
    findSub_found markerK html 0 (pre.length + 1 + u1.length) markerK_ne_nil hocc1
      (Nat.zero_le _)
  have hpgt : pre.length + 1 ≤ p := by
    by_contra hcon
    rw [hpre p (by omega)] at hppre
    exact absurd hppre (by simp)
  have hchars : ∀ i, pre.length < i → i ≤ p → getC html i ≠ '{' := by
    intro i h1 h2
    have hiU : i - pre.length - 1 < U.length := by omega
    have hgc : getC html i = getC U (i - pre.length - 1) := by
      unfold getC
      rw [hhtml, List.getD_append_right pre _ _ _ (by omega), hm, List.cons_append,
        show i - pre.length = (i - pre.length - 1) + 1 by omega, List.getD_cons_succ,
        List.getD_append _ _ _ _
          (by simp only [List.length_append, List.length_cons, List.length_nil]; omega),
        List.getD_append _ _ _ _ hiU]
      simp
    rw [hgc]
    exact (braceFree_getC U hUbf _ hiU).1
  have hscan1 : scanLeftBrace html p = pre.length := by
    rw [scanLeftBrace_descend html p pre.length (by omega) hchars]
    cases hpre0 : pre.length with
    | zero => rfl
    | succ n => exact scanLeftBrace_stop html n (by rw [← hpre0]; exact hgetPre)
  have hbs1 : braceScan html pre.length 0 (html.length + 1) =
      some (pre.length + 1 + U.length) := by
    rw [braceScan_open html pre.length html.length (by omega) hgetPre,
      braceScan_flat html (g ++ (v ++ t)) U hUbf (pre.length + 1) html.length hdropPre1
        (by omega)]
  have hstep1 : extractStep html 0 = some (pre.length + m.length, none) := by
    rw [extractStep_compute html 0 p pre.length (pre.length + 1 + U.length) hfs hscan1
      hgetPre hbs1]
    have htake : (html.drop pre.length).take (pre.length + 1 + U.length + 1 - pre.length) = m := by
      rw [hdropPre, show pre.length + 1 + U.length + 1 - pre.length = m.length by omega]
      exact List.take_left _ _
    rw [htake, hmp, show pre.length + 1 + U.length + 1 = pre.length + m.length by omega]
  -- iteration 2: the valid object is found and kept
  have hdropC : html.drop (pre.length + m.length + g.length) = v ++ t := by
    rw [show html = ((pre ++ m) ++ g) ++ (v ++ t) by rw [hhtml]; simp [List.append_assoc],
      show pre.length + m.length + g.length = ((pre ++ m) ++ g).length by
        simp only [List.length_append]]
    exact List.drop_left _ _
  have hdropCC : html.drop (pre.length + m.length + g.length) =
      '{' :: (((markerK ++ r) ++ ['}']) ++ t) := by
    rw [hdropC, hv, List.cons_append]
  have hgetC : getC html (pre.length + m.length + g.length) = '{' :=
    getC_drop_head html _ '{' _ hdropCC
  have hdropC1 : html.drop (pre.length + m.length + g.length + 1) =
      (markerK ++ r) ++ ('}' :: t) := by
    rw [drop_succ_of_drop html _ '{' _ hdropCC]
    simp [List.append_assoc]
  have hocc2 : markerK.isPrefixOf (html.drop (pre.length + m.length + g.length + 1)) = true := by
    rw [hdropC1, List.append_assoc, List.isPrefixOf_iff_prefix]
    exact List.prefix_append _ _
  obtain ⟨p2, hfs2, hp2a, hp2b, hp2pre, hp2least⟩ :=
    findSub_found markerK html (pre.length + m.length)
      (pre.length + m.length + g.length + 1) markerK_ne_nil hocc2 (by omega)
  have hp2eq : p2 = pre.length + m.length + g.length + 1 := by
    by_contra hne
    rw [hsep p2 hp2a (by omega)] at hp2pre
    exact absurd hp2pre (by simp)
  subst hp2eq
  have hget2 : getC html (pre.length + m.length + g.length + 1) = '"' := by
    apply getC_drop_head html _ '"' (("lot_number\"".data ++ r) ++ ('}' :: t))
    rw [hdropC1, show markerK = '"' :: "lot_number\"".data from rfl]
    simp [List.append_assoc]
  have hscan2 : scanLeftBrace html (pre.length + m.length + g.length + 1) =
      pre.length + m.length + g.length := by
    rw [scanLeftBrace_skip html _ (by rw [hget2]; decide)]
    obtain ⟨n, hn⟩ : ∃ n, pre.length + m.length + g.length = n + 1 :=
      ⟨pre.length + m.length + g.length - 1, by omega⟩
    rw [hn]
    exact scanLeftBrace_stop html n (by rw [← hn]; exact hgetC)
  have hbs2 : braceScan html (pre.length + m.length + g.length) 0 (html.length + 1) =
      some (pre.length + m.length + g.length + 1 + (markerK ++ r).length) := by
    rw [braceScan_open html _ html.length (by omega) hgetC,
      braceScan_flat html t (markerK ++ r) (by rw [braceFreeB_append, hmkbf, hbfr]; rfl)
        (pre.length + m.length + g.length + 1) html.length hdropC1
        (by simp only [List.length_append]; omega)]
  have hstep2 : extractStep html (pre.length + m.length) =
      some (pre.length + m.length + g.length + v.length, some obj) := by
    rw [extractStep_compute html (pre.length + m.length)
      (pre.length + m.length + g.length + 1) (pre.length + m.length + g.length)
      (pre.length + m.length + g.length + 1 + (markerK ++ r).length) hfs2 hscan2 hgetC hbs2]
    have htake2 : (html.drop (pre.length + m.length + g.length)).take
        (pre.length + m.length + g.length + 1 + (markerK ++ r).length + 1 -
          (pre.length + m.length + g.length)) = v := by
      rw [hdropC, show pre.length + m.length + g.length + 1 + (markerK ++ r).length + 1 -
          (pre.length + m.length + g.length) = v.length by
        simp only [List.length_append]; omega]
      exact List.take_left _ _
    rw [htake2, hvp, show pre.length + m.length + g.length + 1 + (markerK ++ r).length + 1 =
      pre.length + m.length + g.length + v.length by simp only [List.length_append]; omega]
  refine ⟨?_, ?_⟩
  · intro fuel out h
    match fuel with
    | 0 =>
      rw [show extractLotObjects html 0 = none from rfl] at h
      exact absurd h (by simp)
    | 1 =>
      rw [extractLotObjects,
        extractRun_step_eq html 0 0 [] (pre.length + m.length) none hstep1,
        show extractRun html 0 (pre.length + m.length) ([] ++ Option.toList none) = none
          from rfl] at h
      exact absurd h (by simp)
    | f + 2 =>
      rw [extractLotObjects,
        extractRun_step_eq html (f + 1) 0 [] (pre.length + m.length) none hstep1,
        show ([] : List JsVal) ++ Option.toList none = [] from rfl,
        extractRun_step_eq html f (pre.length + m.length) []
          (pre.length + m.length + g.length + v.length) (some obj) hstep2,
        show ([] : List JsVal) ++ Option.toList (some obj) = [obj] from rfl] at h
      exact extractRun_mono html f (pre.length + m.length + g.length + v.length) [obj] out h
        obj (List.mem_cons_self _ _)
  · intro htm f
    have hmv : html.drop (pre.length + m.length + g.length + v.length) = t := by
      rw [show html = (((pre ++ m) ++ g) ++ v) ++ t by rw [hhtml]; simp [List.append_assoc],
        show pre.length + m.length + g.length + v.length = (((pre ++ m) ++ g) ++ v).length by
          simp only [List.length_append]]
      exact List.drop_left _ _
    have hfs3 : findSub markerK html (pre.length + m.length + g.length + v.length) = none := by
      apply findSub_none
      intro i hi
      have h2 : (html.drop (pre.length + m.length + g.length + v.length)).drop
          (i - (pre.length + m.length + g.length + v.length)) =
          html.drop ((pre.length + m.length + g.length + v.length) +
            (i - (pre.length + m.length + g.length + v.length))) := List.drop_drop _ _ _
      rw [hmv] at h2
      rw [show (pre.length + m.length + g.length + v.length) +
        (i - (pre.length + m.length + g.length + v.length)) = i by omega] at h2
      rw [← h2]
      exact htm _
    rw [extractLotObjects,
      extractRun_step_eq html (f + 2) 0 [] (pre.length + m.length) none hstep1,
      show ([] : List JsVal) ++ Option.toList none = [] from rfl,
      extractRun_step_eq html (f + 1) (pre.length + m.length) []
        (pre.length + m.length + g.length + v.length) (some obj) hstep2,
      show ([] : List JsVal) ++ Option.toList (some obj) = [obj] from rfl,
      extractRun_done_eq html f (pre.length + m.length + g.length + v.length) [obj]
        (extractStep_none_of html _ hfs3)]

/-- Claim C5 witness: the amended theorem applied at the counterexample's
own malformed candidate and one-space separator, with a marker-first valid
object. -/
theorem claim_C5_amended_witness :
    extractLotObjects htmlC5w 3 = some [objC5w] ∧ htmlC5w = mC5w ++ ' ' :: vC5w := by
  have h := claim_C5_amended [] [] ":".data [' '] ":\"7\"".data []
    (([] : List Char) ++ (markerK ++ ":".data)) mC5w vC5w htmlC5w objC5w
    rfl rfl rfl rfl rfl rfl rfl
    (fun i hi => by
      obtain rfl : i = 0 := Nat.le_zero.mp hi
      rfl)
    (fun i h1 h2 => by
      rw [show ([] : List Char).length + mC5w.length = 15 from rfl] at h1
      rw [show ([] : List Char).length + mC5w.length + [' '].length = 16 from rfl] at h2
      interval_cases i
      · rfl
      · rfl)
    rfl rfl
  exact ⟨h.2 (fun j => by rw [List.drop_nil]; rfl) 0, rfl⟩

/-- Claim C5, counterexample: first page — a malformed candidate (cleaned
text fails to parse) followed one space later by a syntactically valid
marker-bearing JSON object, yet the extractor terminates with no results,
because a brace inside the object's string value misleads the backward
scan.  Second page — the malformed candidate is an unbalanced
marker-bearing brace and the following valid marker-first object is
swallowed whole by the forward scan, again leaving no results; this forces
the amended claim's balanced-candidate restriction. -/
theorem claim_C5_cex :
    extractLotObjects htmlC5c 3 = some [] ∧
    jsonParse vC5 = some objC5c ∧
    jsonParse (jsClean mC5) = none ∧
    htmlC5c = mC5 ++ ' ' :: vC5 ∧
    markerK.isPrefixOf (vC5.drop 9) = true ∧
    extractLotObjects htmlC5u 2 = some [] ∧
    jsonParse vC5w = some objC5w ∧
    htmlC5u = mC5u ++ ' ' :: vC5w :=
  ⟨rfl, rfl, rfl, rfl, rfl, rfl, rfl, rfl⟩


end Purse
